import Mathlib

/-!
# Verification of the vectoria trigram-hash vector-store compiler

Shallow embedding of `src/vectoria/Embeddings.py` (class
`CharacterTrigramFastText.__init__`, the compile/stream/finalize pipeline,
and the memory-mapped reader), together with the trigram hasher / sequencer.
The `Sequencers.CharacterTrigramSequencer` module is imported by
`Embeddings.py` but its source is not part of the sources on hand, so the
hasher and sequencer are modelled from the specification (sections 4.1/4.2,
and the compiler's id computation from section 4.3 step 3).

Strings are modelled as `List Char`; the file under compilation is a
`List Str` of its lines; 32-bit float values are modelled as the exact
scaled decimals denoted by the ASCII float literals of the input format
(section 6): a signed integer mantissa together with a decimal exponent,
the pair denoting `mant * 10 ^ exp`. No claim depends on floating-point
rounding, only on which fields parse and which exact value a field
denotes, so this representation is compared structurally.
-/

namespace Vectoria

abbrev Str := List Char

/-- Whitespace characters recognised by Python `str.split()` with no
argument (the forms relevant to the ASCII input format). -/
def isPySpace (c : Char) : Bool :=
  c = ' ' || c = '\t' || c = '\n' || c = '\r' || c = '\x0b' || c = '\x0c'

/-- Python `line.split()`: split on runs of whitespace, discarding empty
fields (leading/trailing whitespace produces no fields). -/
def pySplit (s : Str) : List Str :=
  (s.splitOnP isPySpace).filter (fun t => t ≠ [])

/-! ## Trigram hasher (modelled from the spec)

Modelled from the spec: `Sequencers.CharacterTrigramSequencer` is imported
by `Embeddings.py` but its source file is missing; spec section 4.1 fixes
the contract: wrap the token in a sentinel character, enumerate overlapping
3-character windows, hash each window from its code points, fold the window
hashes order-dependently (`acc = acc * P + hash(window)`), reduce modulo
the vocabulary size, and map the empty/pad token to 0. -/

/-- Modelled from the spec: the fixed boundary sentinel character wrapped
around a token before trigram extraction (spec section 4.1 step 1). -/
def sentinel : Char := '#'

/-- Modelled from the spec: a fixed polynomial hash of a 3-character
window over its character code points (spec section 4.1, TrigramHasher). -/
def hashTrigram (a b c : Char) : ℕ :=
  a.toNat * 961 + b.toNat * 31 + c.toNat

/-- All overlapping 3-character windows of a character list. -/
def windows3 : Str → List (Char × Char × Char)
  | a :: b :: c :: rest => (a, b, c) :: windows3 (b :: c :: rest)
  | _ => []

/-- Modelled from the spec: order-dependent fold of the window hashes,
`acc = acc * P + hash(window)` (spec section 4.1 step 3). -/
def foldTrigrams (ws : List (Char × Char × Char)) : ℕ :=
  ws.foldl (fun acc w => acc * 131 + hashTrigram w.1 w.2.1 w.2.2) 0

/-- Modelled from the spec: `token_to_id(token, vocab_size)` — sentinel
wrap, trigram windows, polynomial fold, reduction modulo `n`; the empty
(pad) token maps to 0 (spec section 4.1). -/
def token_to_id (tok : Str) (n : ℕ) : ℕ :=
  if tok = [] then 0
  else foldTrigrams (windows3 (sentinel :: tok ++ [sentinel])) % n

/-! ## Sequencer (modelled from the spec) -/

/-- Modelled from the spec: one row of `Sequencer.transform` — whitespace
tokenization, per-token `token_to_id` against the configured hash space
`n`, truncation to the first `maxlen` ids, right-padding with id 0
(spec section 4.2). -/
def seqTransformOne (n maxlen : ℕ) (doc : Str) : List ℕ :=
  let ids := (pySplit doc).map (fun t => token_to_id t n)
  ids.take maxlen ++ List.replicate (maxlen - ids.length) 0

/-- Modelled from the spec: `Sequencer.transform(documents, maxlen)`
applied document-wise (spec section 4.2). -/
def seqTransform (n maxlen : ℕ) (docs : List Str) : List (List ℕ) :=
  docs.map (seqTransformOne n maxlen)

/-! ## Integer parsing (Python `int`) and the header -/

/-- Value of an ASCII digit character. -/
def digitVal (c : Char) : ℕ := c.toNat - 48

/-- Accumulate a digit string into a natural number. -/
def digitsToNat (s : Str) : ℕ := s.foldl (fun acc c => acc * 10 + digitVal c) 0

/-- A nonempty all-digit string parsed to a natural number, `none`
otherwise. -/
def parseNatDigits (s : Str) : Option ℕ :=
  if s = [] then none
  else if s.all Char.isDigit then some (digitsToNat s) else none

/-- Python `int(field)` on a whitespace-free field: optional sign followed
by a nonempty run of decimal digits. -/
def pyParseInt (s : Str) : Option ℤ :=
  match s with
  | '-' :: rest => (parseNatDigits rest).map (fun k => -(k : ℤ))
  | '+' :: rest => (parseNatDigits rest).map (fun k => (k : ℤ))
  | _ => (parseNatDigits s).map (fun k => (k : ℤ))

/-- `words, dimensions = map(int, first_line.split())` (Embeddings.py line
118): succeeds exactly when the line splits into exactly two fields, each
parsing as an integer; any other shape raises `ValueError` (the unpacking
or `int()` fails), which aborts the compile. -/
def parseHeader (line : Str) : Option (ℤ × ℤ) :=
  match pySplit line with
  | [a, b] =>
    match pyParseInt a, pyParseInt b with
    | some w, some d => some (w, d)
    | _, _ => none
  | _ => none

/-! ## Float parsing (`np.float32` on a field)

The parser covers the finite ASCII decimal float grammar of the input
format (spec section 6): optional sign, digits with an optional fractional
part (at least one digit overall), and an optional `e`/`E` exponent.
Parse failure models the `ValueError` raised by `np.float32` on a
malformed field. -/

/-- The exact scaled decimal denoted by a float literal: the value
`mant * 10 ^ exp`. A fresh store cell holds the zero `⟨0, 0⟩`. -/
structure DecVal where
  mant : ℤ
  exp : ℤ
deriving DecidableEq

/-- The zero value of a freshly allocated (or re-zeroed) store cell. -/
def decZero : DecVal := ⟨0, 0⟩

/-- Parse an optional exponent suffix (`e`/`E`, optional sign, digits);
an empty remainder means exponent 0; anything else fails. -/
def parseExpPart (rest : Str) : Option ℤ :=
  match rest with
  | [] => some 0
  | c :: r =>
    if c = 'e' ∨ c = 'E' then
      let es : ℤ × Str :=
        match r with
        | '-' :: rr => (-1, rr)
        | '+' :: rr => (1, rr)
        | rr => (1, rr)
      if es.2 ≠ [] ∧ es.2.all Char.isDigit then
        some (es.1 * (digitsToNat es.2 : ℤ))
      else none
    else none

/-- `np.float32(field)` on a whitespace-free field, as the exact scaled
decimal it denotes: optional sign, integer digits, optional `.` and
fraction digits (at least one digit among the two parts), optional
exponent. `"1.5e2"` parses to `⟨15, 1⟩`, i.e. `15 * 10 ^ 1`. -/
def parseFloat (s : Str) : Option DecVal :=
  let sr : ℤ × Str :=
    match s with
    | '-' :: r => (-1, r)
    | '+' :: r => (1, r)
    | r => (1, r)
  let ip := sr.2.takeWhile Char.isDigit
  let r2 := sr.2.dropWhile Char.isDigit
  match r2 with
  | '.' :: r3 =>
    let fp := r3.takeWhile Char.isDigit
    let r4 := r3.dropWhile Char.isDigit
    if ip = [] ∧ fp = [] then none
    else
      (parseExpPart r4).map
        (fun e => ⟨sr.1 * (digitsToNat (ip ++ fp) : ℤ), e - fp.length⟩)
  | _ =>
    if ip = [] then none
    else (parseExpPart r2).map (fun e => ⟨sr.1 * (digitsToNat ip : ℤ), e⟩)

/-- `np.array(list(map(np.float32, segments[1:])))`: every field must
parse; a single failure raises `ValueError` before anything is written. -/
def parseFloats : List Str → Option (List DecVal)
  | [] => some []
  | s :: rest =>
    match parseFloat s, parseFloats rest with
    | some v, some vs => some (v :: vs)
    | _, _ => none

/-! ## The compiler (Embeddings.py lines 115–135) -/

/-- The compiled matrix: `words` rows of `D` values each. -/
abbrev Mat := List (List DecVal)

/-- `np.memmap(..., mode='w+', shape=(words, dimensions))`: a zero-filled
`words × D` matrix. -/
def initMat (words D : ℕ) : Mat := List.replicate words (List.replicate D decZero)

/-- Fatal compile outcomes: a malformed header (`ValueError` from line
118's unpacking/`int`), a failed pre-allocation (`np.memmap` rejects an
empty or negative shape), and an uncaught `IndexError` from a row write
out of bounds (`except ValueError` on line 129 does not catch it). -/
inductive CompileError
  | malformedHeader
  | allocFailure
  | indexError
deriving DecidableEq

/-- One iteration of the streaming loop (Embeddings.py lines 121–130):
split the line; if it has more than `dimensions` fields and a token longer
than 2 characters, hash the token and parse the values; a float-parse
`ValueError` or an assignment-broadcast `ValueError` (parsed vector length
different from `D`) is caught and the line skipped; a row index outside
the matrix would raise an uncaught `IndexError`.

The row id is the first entry of `sequencer.transform([token])` — modelled
from the spec as `token_to_id(token, words)` (spec section 4.3 step 3),
the sequencer source being absent. The broadcast check `nums.length = D`
is exact here because the field-count guard already forces
`nums.length ≥ D`. -/
def processLine (words D : ℕ) (mat : Mat) (line : Str) : Except CompileError Mat :=
  match pySplit line with
  | [] => .ok mat
  | tok :: vals =>
    if D < (tok :: vals).length ∧ 2 < tok.length then
      match parseFloats vals with
      | none => .ok mat
      | some nums =>
        if nums.length = D then
          if token_to_id tok words < words then
            .ok (List.set mat (token_to_id tok words) nums)
          else .error .indexError
        else .ok mat
    else .ok mat

/-- The whole streaming loop: the `for line in open(...)` pass re-reads the
file from the start, so the header line itself flows through
`processLine` (where its two fields almost always fail the guards). -/
def compileStream (words D : ℕ) (mat : Mat) : List Str → Except CompileError Mat
  | [] => .ok mat
  | l :: ls =>
    match processLine words D mat l with
    | .error e => .error e
    | .ok m2 => compileStream words D m2 ls

/-- `embeddings[0] = np.zeros(dimensions)` (line 132): force the pad row. -/
def zeroRow0 (D : ℕ) (m : Mat) : Mat := List.set m 0 (List.replicate D decZero)

/-- The compile pipeline of Embeddings.py lines 115–135 on the source
file's lines: parse the header from the first line, pre-allocate the
`words × D` zero matrix (fails for an empty or negative shape), stream
every line of the file, then zero row 0. -/
def compile (src : List Str) : Except CompileError Mat :=
  match parseHeader (src.headD []) with
  | none => .error .malformedHeader
  | some (w, d) =>
    if 1 ≤ w ∧ 1 ≤ d then
      match compileStream w.toNat d.toNat (initMat w.toNat d.toNat) src with
      | .error e => .error e
      | .ok m => .ok (zeroRow0 d.toNat m)
    else .error .allocFailure

/-- Decidable equality of compile outcomes. -/
def decEqExcept {ε α : Type} [DecidableEq ε] [DecidableEq α] :
    DecidableEq (Except ε α) := fun x y =>
  match x, y with
  | .ok a, .ok b =>
    if h : a = b then .isTrue (by rw [h])
    else .isFalse (by intro he; injection he; contradiction)
  | .error a, .error b =>
    if h : a = b then .isTrue (by rw [h])
    else .isFalse (by intro he; injection he; contradiction)
  | .ok _, .error _ => .isFalse (by intro he; exact Except.noConfusion he)
  | .error _, .ok _ => .isFalse (by intro he; exact Except.noConfusion he)

instance {ε α : Type} [DecidableEq ε] [DecidableEq α] : DecidableEq (Except ε α) :=
  decEqExcept

/-! ## The reader (Embeddings.py lines 137–141)

`self.embeddings = np.memmap(final_path, mode='r', shape=(words, dimensions))`
and a row lookup is numpy basic indexing `self.embeddings[id]` on axis 0:
an integer `id` with `-words ≤ id < words` selects a row (negative ids wrap
to `words + id`); anything else raises `IndexError` (the spec's
`OutOfRange`). -/

/-- Reader failure: numpy `IndexError` on an out-of-bounds row index. -/
inductive ReaderError
  | outOfRange
deriving DecidableEq

/-- Row lookup on the opened memory-mapped store: numpy integer indexing
on the first axis of a `(words, D)` array. -/
def readerRow (words : ℕ) (mat : Mat) (id : ℤ) : Except ReaderError (List DecVal) :=
  if 0 ≤ id ∧ id < (words : ℤ) then .ok (mat.getD id.toNat [])
  else if -(words : ℤ) ≤ id ∧ id < 0 then .ok (mat.getD ((words : ℤ) + id).toNat [])
  else .error .outOfRange

/-! ## Filesystem model (temporary file and atomic publish)

The compile writes the matrix into `final_path.with_suffix('.tmp')`
(line 119) and renames it onto `final_path` only after streaming, zeroing
and flushing (line 135). The externally visible operations are modelled as
a list of filesystem operations; only content visibility at paths is
modelled. -/

/-- `Path.with_suffix(suf)` on a single path component: replace the part
from the last dot on (a lone leading dot is not a suffix), or append when
there is no suffix. -/
def withSuffix (p suf : Str) : Str :=
  let rev := p.reverse
  match rev.dropWhile (fun c => c ≠ '.') with
  | '.' :: stemRev => if stemRev = [] then p ++ suf else stemRev.reverse ++ suf
  | _ => p ++ suf

/-- A filesystem: content (a matrix) possibly present at each path. -/
def FSys := Str → Option Mat

/-- An externally visible filesystem operation of the compile. -/
inductive FsOp
  | put (p : Str) (m : Mat)
  | rename (a b : Str)

/-- Effect of one operation: `put` overwrites the content at a path,
`rename` atomically moves the content from one path onto another. -/
def applyOp (fs : FSys) : FsOp → FSys
  | .put p m => fun q => if q = p then some m else fs q
  | .rename a b => fun q => if q = b then fs a else if q = a then none else fs q

/-- The matrix states visible in the temporary file after each processed
line, up to (and not including) a fatal error. -/
def streamStates (words D : ℕ) (mat : Mat) : List Str → List Mat
  | [] => []
  | l :: ls =>
    match processLine words D mat l with
    | .error _ => []
    | .ok m2 => m2 :: streamStates words D m2 ls

/-- The compile run against destination `dest`: the ordered visible
filesystem operations and whether the run succeeded. A malformed header or
failed allocation aborts before any write reaches the temporary path; a
mid-stream fatal error leaves only temporary-path writes; on success the
final zeroed matrix is flushed to the temporary path and renamed onto
`dest` as the last operation. -/
def opsOf (dest : Str) (src : List Str) : List FsOp × Bool :=
  let tmp := withSuffix dest ".tmp".toList
  match parseHeader (src.headD []) with
  | none => ([], false)
  | some (w, d) =>
    if 1 ≤ w ∧ 1 ≤ d then
      let words := w.toNat
      let D := d.toNat
      let states := streamStates words D (initMat words D) src
      match compileStream words D (initMat words D) src with
      | .error _ =>
        (FsOp.put tmp (initMat words D) :: states.map (FsOp.put tmp), false)
      | .ok m =>
        (FsOp.put tmp (initMat words D) :: states.map (FsOp.put tmp)
          ++ [FsOp.put tmp (zeroRow0 D m), FsOp.rename tmp dest], true)
    else ([], false)

/-- The filesystem states traversed while executing a list of operations,
starting state included. -/
def fsTrace (fs : FSys) : List FsOp → List FSys
  | [] => [fs]
  | op :: ops => fs :: fsTrace (applyOp fs op) ops

/-- Matrix well-formedness: `words` rows of width `D`. -/
def matShape (words D : ℕ) (m : Mat) : Prop :=
  m.length = words ∧ ∀ r ∈ m, r.length = D

/-! ## Basic lemmas -/

/-- The hasher's output is strictly below the modulus. -/
lemma token_to_id_lt (tok : Str) {n : ℕ} (h : 0 < n) : token_to_id tok n < n := by
  unfold token_to_id
  split
  · exact h
  · exact Nat.mod_lt _ h

/-- A successful float parse yields one value per field. -/
lemma parseFloats_length : ∀ {vs : List Str} {ns : List DecVal},
    parseFloats vs = some ns → ns.length = vs.length := by
  intro vs
  induction vs with
  | nil => intro ns h; simp [parseFloats] at h; simp [← h]
  | cons s rest ih =>
    intro ns h
    simp only [parseFloats] at h
    cases hf : parseFloat s with
    | none => rw [hf] at h; exact absurd h (by simp)
    | some v =>
      cases hr : parseFloats rest with
      | none => rw [hf, hr] at h; exact absurd h (by simp)
      | some vs' =>
        rw [hf, hr] at h
        cases h
        simp [ih hr]

/-- A line whose split is empty is left alone. -/
lemma processLine_empty {words D : ℕ} {mat : Mat} {line : Str}
    (hs : pySplit line = []) : processLine words D mat line = .ok mat := by
  simp only [processLine, hs]

/-- Failing the field-count/token-length guard skips the line. -/
lemma processLine_skip_guard {words D : ℕ} {mat : Mat} {line : Str} {tok : Str}
    {vals : List Str} (hs : pySplit line = tok :: vals)
    (h : ¬(D < (tok :: vals).length ∧ 2 < tok.length)) :
    processLine words D mat line = .ok mat := by
  simp only [processLine, hs]
  rw [if_neg h]

/-- A float-parse failure skips the line, writing nothing. -/
lemma processLine_skip_parse {words D : ℕ} {mat : Mat} {line : Str} {tok : Str}
    {vals : List Str} (hs : pySplit line = tok :: vals)
    (hp : parseFloats vals = none) :
    processLine words D mat line = .ok mat := by
  simp only [processLine, hs]
  by_cases hg : D < (tok :: vals).length ∧ 2 < tok.length
  · rw [if_pos hg]
    simp only [hp]
  · rw [if_neg hg]

/-- A parsed vector whose length is not `D` fails the broadcast and the
line is skipped. -/
lemma processLine_skip_len {words D : ℕ} {mat : Mat} {line : Str} {tok : Str}
    {vals : List Str} {nums : List DecVal} (hs : pySplit line = tok :: vals)
    (hp : parseFloats vals = some nums) (hlen : nums.length ≠ D) :
    processLine words D mat line = .ok mat := by
  simp only [processLine, hs]
  by_cases hg : D < (tok :: vals).length ∧ 2 < tok.length
  · rw [if_pos hg]
    simp only [hp]
    rw [if_neg hlen]
  · rw [if_neg hg]

/-- A well-formed line overwrites exactly the hashed row. -/
lemma processLine_write {words D : ℕ} {mat : Mat} {line : Str} {tok : Str}
    {vals : List Str} {nums : List DecVal} (hw : 0 < words)
    (hs : pySplit line = tok :: vals) (hlen : (tok :: vals).length = D + 1)
    (htok : 3 ≤ tok.length) (hp : parseFloats vals = some nums) :
    processLine words D mat line = .ok (List.set mat (token_to_id tok words) nums) := by
  have hlen' : (tok :: vals).length = D + 1 := hlen
  have hvals : vals.length = D := by simpa using hlen
  simp only [processLine, hs]
  rw [if_pos ⟨by omega, by omega⟩]
  simp only [hp]
  rw [if_pos (by rw [parseFloats_length hp]; exact hvals),
    if_pos (token_to_id_lt tok hw)]

/-- When the hash space is nonempty, no line can raise an uncaught error:
the only fatal branch is the out-of-bounds row write, and the hashed id is
always in range. -/
lemma processLine_ok (words D : ℕ) (mat : Mat) (line : Str) (hw : 0 < words) :
    ∃ m2, processLine words D mat line = .ok m2 := by
  cases hs : pySplit line with
  | nil => exact ⟨mat, processLine_empty hs⟩
  | cons tok vals =>
    by_cases hg : D < (tok :: vals).length ∧ 2 < tok.length
    · cases hp : parseFloats vals with
      | none => exact ⟨mat, processLine_skip_parse hs hp⟩
      | some nums =>
        by_cases hlen : nums.length = D
        · refine ⟨List.set mat (token_to_id tok words) nums, ?_⟩
          simp only [processLine, hs]
          rw [if_pos hg]
          simp only [hp]
          rw [if_pos hlen, if_pos (token_to_id_lt tok hw)]
        · exact ⟨mat, processLine_skip_len hs hp hlen⟩
    · exact ⟨mat, processLine_skip_guard hs hg⟩

/-- The streaming pass reaches the end of the file whenever the hash space
is nonempty. -/
lemma compileStream_ok (words D : ℕ) (hw : 0 < words) :
    ∀ (ls : List Str) (mat : Mat), ∃ m, compileStream words D mat ls = .ok m := by
  intro ls
  induction ls with
  | nil => exact fun mat => ⟨mat, rfl⟩
  | cons l ls ih =>
    intro mat
    obtain ⟨m2, hm2⟩ := processLine_ok words D mat l hw
    obtain ⟨m, hm⟩ := ih m2
    refine ⟨m, ?_⟩
    simp only [compileStream]
    rw [hm2]
    exact hm

/-- The freshly allocated matrix has the declared shape. -/
lemma initMat_shape (words D : ℕ) : matShape words D (initMat words D) := by
  constructor
  · simp [initMat]
  · intro r hr
    rw [List.eq_of_mem_replicate hr]
    simp

/-- One streaming step preserves the matrix shape (a written row has
exactly `D` values, enforced by the broadcast check). -/
lemma processLine_shape {words D : ℕ} {mat m2 : Mat} {line : Str}
    (hm : matShape words D mat) (h : processLine words D mat line = .ok m2) :
    matShape words D m2 := by
  cases hs : pySplit line with
  | nil =>
    rw [processLine_empty hs] at h
    cases h
    exact hm
  | cons tok vals =>
    by_cases hg : D < (tok :: vals).length ∧ 2 < tok.length
    · cases hp : parseFloats vals with
      | none =>
        rw [processLine_skip_parse hs hp] at h
        cases h
        exact hm
      | some nums =>
        by_cases hlen : nums.length = D
        · simp only [processLine, hs] at h
          rw [if_pos hg] at h
          simp only [hp] at h
          rw [if_pos hlen] at h
          by_cases hid : token_to_id tok words < words
          · rw [if_pos hid] at h
            cases h
            constructor
            · rw [List.length_set]
              exact hm.1
            · intro r hr
              rcases List.mem_or_eq_of_mem_set hr with h' | h'
              · exact hm.2 r h'
              · rw [h']
                exact hlen
          · rw [if_neg hid] at h
            exact absurd h (by simp)
        · rw [processLine_skip_len hs hp hlen] at h
          cases h
          exact hm
    · rw [processLine_skip_guard hs hg] at h
      cases h
      exact hm

/-- The whole streaming pass preserves the matrix shape. -/
lemma compileStream_shape {words D : ℕ} : ∀ {ls : List Str} {mat m : Mat},
    matShape words D mat → compileStream words D mat ls = .ok m →
    matShape words D m := by
  intro ls
  induction ls with
  | nil =>
    intro mat m hm h
    simp only [compileStream] at h
    cases h
    exact hm
  | cons l ls ih =>
    intro mat m hm h
    simp only [compileStream] at h
    cases hp : processLine words D mat l with
    | error e =>
      rw [hp] at h
      exact absurd h (by simp)
    | ok m2 =>
      rw [hp] at h
      exact ih (processLine_shape hm hp) h

/-- Zeroing the pad row preserves the matrix shape. -/
lemma zeroRow0_shape {words D : ℕ} {m : Mat} (hm : matShape words D m) :
    matShape words D (zeroRow0 D m) := by
  constructor
  · rw [zeroRow0, List.length_set]
    exact hm.1
  · intro r hr
    rcases List.mem_or_eq_of_mem_set hr with h' | h'
    · exact hm.2 r h'
    · rw [h']
      simp

/-- With a parsed header of two positive integers, the whole compile
succeeds and the result has the header-declared shape. -/
lemma compile_ok_of_header {src : List Str} {w d : ℤ}
    (hh : parseHeader (src.headD []) = some (w, d)) (hw : 1 ≤ w) (hd : 1 ≤ d) :
    ∃ m, compile src = .ok m ∧ matShape w.toNat d.toNat m := by
  have hwpos : 0 < w.toNat := by omega
  obtain ⟨m', hm'⟩ := compileStream_ok w.toNat d.toNat hwpos src (initMat w.toNat d.toNat)
  refine ⟨zeroRow0 d.toNat m', ?_, ?_⟩
  · simp only [compile, hh]
    rw [if_pos ⟨hw, hd⟩, hm']
  · exact zeroRow0_shape (compileStream_shape (initMat_shape w.toNat d.toNat) hm')

/-! ## C1 -/

/-- C1: for every hash-space size `n > 0` and every token,
`0 ≤ token_to_id(token, n) < n` (the id is a natural number, so the lower
bound is intrinsic), and consequently the streaming row write
`embeddings[id]` can never raise the uncaught out-of-bounds `IndexError`
when the matrix has at least one row. -/
theorem c1_row_id_bounded :
    (∀ (tok : Str) (n : ℕ), 0 < n → token_to_id tok n < n) ∧
    (∀ (words D : ℕ) (mat : Mat) (line : Str), 0 < words →
      processLine words D mat line ≠ .error .indexError) := by
  constructor
  · exact fun tok n h => token_to_id_lt tok h
  · intro words D mat line hw h
    obtain ⟨m2, hm2⟩ := processLine_ok words D mat line hw
    rw [hm2] at h
    exact Except.noConfusion h

/-- Witness for C1 at a concrete token, hash space and line. -/
theorem c1_row_id_bounded_witness :
    token_to_id "hello".toList 3 < 3 ∧
    processLine 3 2 (initMat 3 2) "hello 1.0 2.0".toList ≠ .error .indexError :=
  ⟨c1_row_id_bounded.1 "hello".toList 3 (by decide),
   c1_row_id_bounded.2 3 2 (initMat 3 2) "hello 1.0 2.0".toList (by decide)⟩

/-! ## C2 -/

/-- C2 counterexample: on a store with `words = 10`, the reader lookup
`row(-1)` does not fail with `OutOfRange` — numpy negative indexing wraps
it to the last row, so it returns row 9 (here the zero row of a freshly
allocated store). -/
theorem c2_negative_id_counterexample :
    readerRow 10 (initMat 10 2) (-1) = .ok (List.replicate 2 decZero) ∧
    readerRow 10 (initMat 10 2) (-1) ≠ .error .outOfRange := by
  constructor
  · rfl
  · intro h
    rw [show readerRow 10 (initMat 10 2) (-1) = .ok (List.replicate 2 decZero) from rfl] at h
    exact Except.noConfusion h

/-- C2 amended: `row(id)` fails with `OutOfRange` exactly when
`id ≥ words` or `id < -words`; ids in `[0, words)` return row `id`, and
negative ids in `[-words, -1]` wrap around (numpy semantics) and return
row `words + id` instead of failing. -/
theorem c2_row_bounds_amended :
    ∀ (words : ℕ) (mat : Mat) (id : ℤ),
      (readerRow words mat id = .error .outOfRange ↔
        (words : ℤ) ≤ id ∨ id < -(words : ℤ)) ∧
      (0 ≤ id → id < (words : ℤ) →
        readerRow words mat id = .ok (mat.getD id.toNat [])) ∧
      (-(words : ℤ) ≤ id → id < 0 →
        readerRow words mat id = .ok (mat.getD ((words : ℤ) + id).toNat [])) := by
  intro words mat id
  unfold readerRow
  split_ifs with h1 h2
  · refine ⟨⟨fun h => absurd h (by simp), fun h => absurd h (by omega)⟩, fun _ _ => rfl, ?_⟩
    intro _ h
    omega
  · refine ⟨⟨fun h => absurd h (by simp), fun h => absurd h (by omega)⟩, ?_, fun _ _ => rfl⟩
    intro _ h
    omega
  · refine ⟨⟨fun _ => by omega, fun _ => rfl⟩, ?_, ?_⟩
    · intro h h'
      exact absurd ⟨h, h'⟩ h1
    · intro h h'
      exact absurd ⟨h, h'⟩ h2

/-- Witness for C2's amended bound at `words = 10`: `row(10)` fails with
`OutOfRange` and `row(3)` succeeds. -/
theorem c2_row_bounds_amended_witness :
    readerRow 10 (initMat 10 2) 10 = .error .outOfRange ∧
    readerRow 10 (initMat 10 2) 3 = .ok ((initMat 10 2).getD (3 : ℤ).toNat []) :=
  ⟨(c2_row_bounds_amended 10 (initMat 10 2) 10).1.2 (by omega),
   (c2_row_bounds_amended 10 (initMat 10 2) 3).2.1 (by omega) (by omega)⟩

/-! ## C3 -/

/-- C3: during streaming, every per-line defect is absorbed by skipping the
line: whenever the hash space has at least one row, the streaming pass over
any list of lines runs to the end and returns a matrix, never a fatal
error; consequently a compile whose header parses to two positive integers
succeeds. -/
theorem c3_streaming_processes_all_lines :
    (∀ (words D : ℕ) (mat : Mat) (lines : List Str), 0 < words →
      ∃ m, compileStream words D mat lines = .ok m) ∧
    (∀ (src : List Str) (w d : ℤ), parseHeader (src.headD []) = some (w, d) →
      1 ≤ w → 1 ≤ d → ∃ m, compile src = .ok m) := by
  constructor
  · intro words D mat lines hw
    exact compileStream_ok words D hw lines mat
  · intro src w d hh hw hd
    obtain ⟨m, hm, _⟩ := compile_ok_of_header hh hw hd
    exact ⟨m, hm⟩

/-- Witness for C3 on a file holding a malformed data line, a short token
and an oversized vector alongside a good line. -/
theorem c3_streaming_processes_all_lines_witness :
    (∃ m, compileStream 3 2 (initMat 3 2)
      (["junk x y", "ab 1.0 2.0", "abcd 1.0 2.0 3.0", "hello 1.0 2.0"].map
        String.toList) = .ok m) ∧
    (∃ m, compile (["3 2", "junk x y", "hello 1.0 2.0"].map String.toList) = .ok m) :=
  ⟨c3_streaming_processes_all_lines.1 3 2 (initMat 3 2) _ (by decide),
   c3_streaming_processes_all_lines.2 _ 3 2 (by decide) (by decide) (by decide)⟩

/-! ## C5 -/

/-- C5: compilation aborts with the malformed-header error, performing no
filesystem write, exactly when the first line does not hold two integers;
when it holds two integers `w`, `d` the malformed-header error cannot
occur, and with a representable (positive) shape the compile proceeds and
produces a `w × d` matrix. -/
theorem c5_malformed_header :
    ∀ (src : List Str) (dest : Str),
      (parseHeader (src.headD []) = none →
        compile src = .error .malformedHeader ∧ (opsOf dest src).1 = []) ∧
      (∀ w d : ℤ, parseHeader (src.headD []) = some (w, d) →
        compile src ≠ .error .malformedHeader ∧
        (1 ≤ w → 1 ≤ d → ∃ m, compile src = .ok m ∧
          m.length = w.toNat ∧ ∀ r ∈ m, r.length = d.toNat)) := by
  intro src dest
  constructor
  · intro hh
    constructor
    · simp only [compile, hh]
    · simp only [opsOf, hh]
  · intro w d hh
    constructor
    · intro h
      simp only [compile, hh] at h
      by_cases halloc : 1 ≤ w ∧ 1 ≤ d
      · rw [if_pos halloc] at h
        obtain ⟨m', hm'⟩ :=
          compileStream_ok w.toNat d.toNat (by omega) src (initMat w.toNat d.toNat)
        rw [hm'] at h
        exact Except.noConfusion h
      · rw [if_neg halloc] at h
        injection h with h'
        exact CompileError.noConfusion h'
    · intro hw hd
      obtain ⟨m, hm, hsh⟩ := compile_ok_of_header hh hw hd
      exact ⟨m, hm, hsh.1, hsh.2⟩

/-- Witness for C5: a header of two integers compiles to a matrix of the
declared shape; the `3 2` header yields a 3-row matrix of 2-wide rows. -/
theorem c5_malformed_header_witness :
    ∃ m, compile (["3 2", "hello 1.0 2.0"].map String.toList) = .ok m ∧
      m.length = (3 : ℤ).toNat ∧ ∀ r ∈ m, r.length = (2 : ℤ).toNat :=
  ((c5_malformed_header (["3 2", "hello 1.0 2.0"].map String.toList) []).2 3 2
    (by decide)).2 (by omega) (by omega)

/-! ## C6 -/

/-- C6: every successful compile ends with row 0 unconditionally
overwritten with zeros — whatever the input lines wrote there, the final
matrix is nonempty and its first row is all zeros. -/
theorem c6_row0_all_zeros :
    ∀ (src : List Str) (m : Mat), compile src = .ok m →
      m ≠ [] ∧ ∀ x ∈ m.headD [], x = decZero := by
  intro src m h
  cases hh : parseHeader (src.headD []) with
  | none =>
    simp only [compile, hh] at h
    exact absurd h (by simp)
  | some wd =>
    obtain ⟨w, d⟩ := wd
    simp only [compile, hh] at h
    by_cases halloc : 1 ≤ w ∧ 1 ≤ d
    · rw [if_pos halloc] at h
      cases hcs : compileStream w.toNat d.toNat (initMat w.toNat d.toNat) src with
      | error e =>
        rw [hcs] at h
        exact absurd h (by simp)
      | ok m' =>
        rw [hcs] at h
        injection h with h'
        have hshape := compileStream_shape (initMat_shape w.toNat d.toNat) hcs
        have hpos : 0 < m'.length := by
          rw [hshape.1]
          omega
        cases m' with
        | nil => simp at hpos
        | cons r rest =>
          rw [← h']
          constructor
          · simp [zeroRow0]
          · intro x hx
            simp only [zeroRow0, List.set_cons_zero, List.headD_cons] at hx
            exact List.eq_of_mem_replicate hx
    · rw [if_neg halloc] at h
      exact absurd h (by simp)

/-- Witness for C6: a compile whose only data line's token hashes to row 0
(`token_to_id("hello", 3) = 0`) still ends with row 0 zeroed — the write
of `[1.0, 2.0]` to row 0 is overwritten before finalization. -/
theorem c6_row0_all_zeros_witness :
    initMat 3 2 ≠ [] ∧ ∀ x ∈ (initMat 3 2).headD [], x = decZero :=
  c6_row0_all_zeros (["3 2", "hello 1.0 2.0"].map String.toList) (initMat 3 2)
    (by decide)

/-! ## C7 -/

/-- C7 counterexample: the line `"abc 1.0 2.0 3.0"` under `D = 2` meets
none of the claim's skip conditions — it has 4 fields (not fewer than
`D + 1 = 3`), a 3-character token, and every value field parses as a
float — yet the streaming step skips it (the matrix is returned
unchanged), because the 3-wide vector fails to broadcast into the 2-wide
row. -/
theorem c7_skip_conditions_counterexample :
    pySplit "abc 1.0 2.0 3.0".toList =
      ["abc".toList, "1.0".toList, "2.0".toList, "3.0".toList] ∧
    ¬ (pySplit "abc 1.0 2.0 3.0".toList).length < 2 + 1 ∧
    3 ≤ "abc".toList.length ∧
    parseFloats ["1.0".toList, "2.0".toList, "3.0".toList] =
      some [⟨10, -1⟩, ⟨20, -1⟩, ⟨30, -1⟩] ∧
    processLine 5 2 (initMat 5 2) "abc 1.0 2.0 3.0".toList = .ok (initMat 5 2) := by
  exact ⟨by decide, by decide, by decide, by decide, by decide⟩

/-- C7 amended: a data line is skipped (no error, no row modified) exactly
when its field count differs from `D + 1` — fewer fields than `D + 1`, or
more (an oversized vector failing the broadcast) — or its token is shorter
than 3 characters, or some value field fails to parse as a float; in the
remaining case the parsed `D` floats overwrite exactly the hashed row. -/
theorem c7_skip_conditions_amended :
    ∀ (words D : ℕ) (mat : Mat) (line : Str), 0 < words →
      (pySplit line = [] → processLine words D mat line = .ok mat) ∧
      (∀ tok vals, pySplit line = tok :: vals →
        (((tok :: vals).length ≠ D + 1 ∨ tok.length < 3 ∨ parseFloats vals = none) →
          processLine words D mat line = .ok mat) ∧
        (∀ nums, (tok :: vals).length = D + 1 → 3 ≤ tok.length →
          parseFloats vals = some nums →
          processLine words D mat line =
            .ok (List.set mat (token_to_id tok words) nums))) := by
  intro words D mat line hw
  constructor
  · exact fun hs => processLine_empty hs
  · intro tok vals hs
    constructor
    · intro hskip
      by_cases hg : D < (tok :: vals).length ∧ 2 < tok.length
      · cases hp : parseFloats vals with
        | none => exact processLine_skip_parse hs hp
        | some nums =>
          refine processLine_skip_len hs hp ?_
          have hnl : nums.length = vals.length := parseFloats_length hp
          have hcl : (tok :: vals).length = vals.length + 1 := List.length_cons tok vals
          rcases hskip with hne | hlt | hpn
          · omega
          · omega
          · rw [hp] at hpn
            exact absurd hpn (by simp)
      · exact processLine_skip_guard hs hg
    · intro nums hlen htok hp
      exact processLine_write hw hs hlen htok hp

/-- Witness for C7's amended claim: the spec's own scenario — the line
`"ab 1.0 2.0"` (token of length 2) is skipped and the matrix kept
unchanged — and a well-formed line writes its hashed row. -/
theorem c7_skip_conditions_amended_witness :
    processLine 5 2 (initMat 5 2) "ab 1.0 2.0".toList = .ok (initMat 5 2) ∧
    processLine 5 2 (initMat 5 2) "hello 1.0 2.0".toList =
      .ok (List.set (initMat 5 2) (token_to_id "hello".toList 5) [⟨10, -1⟩, ⟨20, -1⟩]) :=
  ⟨(((c7_skip_conditions_amended 5 2 (initMat 5 2) "ab 1.0 2.0".toList
      (by decide)).2 "ab".toList ["1.0".toList, "2.0".toList] (by decide)).1
      (Or.inr (Or.inl (by decide)))),
   (((c7_skip_conditions_amended 5 2 (initMat 5 2) "hello 1.0 2.0".toList
      (by decide)).2 "hello".toList ["1.0".toList, "2.0".toList] (by decide)).2
      [⟨10, -1⟩, ⟨20, -1⟩] (by decide) (by decide) (by decide))⟩

/-! ## C10 -/

/-- C10: a data line with a valid token (length at least 3) but more than
`D` parsable float values is silently skipped — the oversized vector fails
to broadcast into the `D`-wide row, the resulting `ValueError` is absorbed
by the same per-line recovery as a parse failure, the target row keeps its
previous contents, and no fatal error is raised. -/
theorem c10_oversized_vector_skipped :
    ∀ (words D : ℕ) (mat : Mat) (line tok : Str) (vals : List Str) (nums : List DecVal),
      pySplit line = tok :: vals → D + 1 < (tok :: vals).length →
      3 ≤ tok.length → parseFloats vals = some nums →
      processLine words D mat line = .ok mat := by
  intro words D mat line tok vals nums hs hbig htok hp
  refine processLine_skip_len hs hp ?_
  have hnl : nums.length = vals.length := parseFloats_length hp
  have hcl : (tok :: vals).length = vals.length + 1 := List.length_cons tok vals
  omega

/-- Witness for C10: under `D = 3`, the line `"wxyz 1.5 2.5 3.5 4.5"`
carries four parsable values and is skipped, leaving the matrix unchanged. -/
theorem c10_oversized_vector_skipped_witness :
    processLine 7 3 (initMat 7 3) "wxyz 1.5 2.5 3.5 4.5".toList = .ok (initMat 7 3) :=
  c10_oversized_vector_skipped 7 3 (initMat 7 3) "wxyz 1.5 2.5 3.5 4.5".toList
    "wxyz".toList ["1.5".toList, "2.5".toList, "3.5".toList, "4.5".toList]
    [⟨15, -1⟩, ⟨25, -1⟩, ⟨35, -1⟩, ⟨45, -1⟩] (by decide) (by decide) (by decide) (by decide)

/-! ## C9 -/

/-- Truncate-and-right-pad indexes like the underlying list (with the pad
value as the out-of-range default). -/
lemma pad_getD (l : List ℕ) (m i : ℕ) (hi : i < m) :
    (l.take m ++ List.replicate (m - l.length) 0).getD i 0 = l.getD i 0 := by
  by_cases h : i < l.length
  · have h1 : i < (l.take m).length := by
      rw [List.length_take]
      omega
    rw [List.getD_append _ _ _ _ h1, List.getD_eq_getElem?_getD,
      List.getElem?_take, if_pos hi, ← List.getD_eq_getElem?_getD]
  · have h2 : (l.take m).length ≤ i := by
      rw [List.length_take]
      omega
    rw [List.getD_append_right _ _ _ _ h2, List.getD_eq_getElem?_getD,
      List.getElem?_replicate]
    have hr : l.getD i 0 = 0 := by
      rw [List.getD_eq_getElem?_getD, List.getElem?_eq_none (by omega)]
      rfl
    rw [hr]
    split <;> rfl

/-- Indexing the mapped id list: the hashed token below the token count,
the pad id 0 beyond it. -/
lemma map_token_getD (toks : List Str) (n i : ℕ) :
    (toks.map (fun t => token_to_id t n)).getD i 0 =
      if i < toks.length then token_to_id (toks.getD i []) n else 0 := by
  rw [List.getD_eq_getElem?_getD, List.getElem?_map]
  by_cases h : i < toks.length
  · rw [List.getElem?_eq_getElem h, if_pos h, List.getD_eq_getElem?_getD,
      List.getElem?_eq_getElem h]
    rfl
  · rw [List.getElem?_eq_none (by omega), if_neg h]
    rfl

/-- C9: for every document and `max_len > 0`, `Sequencer.transform` on the
one-document batch returns one row of exactly `max_len` ids; position `i`
holds the id of the `i`-th whitespace token while `i` is below the token
count (so tokens beyond `max_len` are dropped, not wrapped), and the pad
id 0 from the token count on (right-padding). -/
theorem c9_transform_row_shape :
    ∀ (n maxlen : ℕ) (doc : Str), 0 < maxlen →
      seqTransform n maxlen [doc] = [seqTransformOne n maxlen doc] ∧
      (seqTransformOne n maxlen doc).length = maxlen ∧
      (∀ i, i < maxlen →
        (seqTransformOne n maxlen doc).getD i 0 =
          if i < (pySplit doc).length then
            token_to_id ((pySplit doc).getD i []) n
          else 0) := by
  intro n maxlen doc hml
  refine ⟨rfl, ?_, ?_⟩
  · simp only [seqTransformOne, List.length_append, List.length_take,
      List.length_replicate, List.length_map]
    omega
  · intro i hi
    simp only [seqTransformOne]
    rw [pad_getD _ _ _ hi, map_token_getD]

/-- Witness for C9 at `max_len = 4` on a two-token document: the row has
length 4 and position 3 is padding. -/
theorem c9_transform_row_shape_witness :
    (seqTransformOne 7 4 "hello there".toList).length = 4 ∧
    (seqTransformOne 7 4 "hello there".toList).getD 3 0 =
      (if 3 < (pySplit "hello there".toList).length then
        token_to_id ((pySplit "hello there".toList).getD 3 []) 7
      else 0) :=
  ⟨(c9_transform_row_shape 7 4 "hello there".toList (by decide)).2.1,
   (c9_transform_row_shape 7 4 "hello there".toList (by decide)).2.2 3 (by decide)⟩

/-! ## C4 and C8: lemmas on the filesystem trace -/

/-- A trace over a concatenation ending in one final operation is the
trace of the prefix followed by the state after the final operation. -/
lemma fsTrace_concat (xs : List FsOp) (y : FsOp) : ∀ fs : FSys,
    fsTrace fs (xs ++ [y]) =
      fsTrace fs xs ++ [applyOp (List.foldl applyOp fs xs) y] := by
  induction xs with
  | nil => intro fs; rfl
  | cons op ops ih =>
    intro fs
    show fs :: fsTrace (applyOp fs op) (ops ++ [y]) =
      (fs :: fsTrace (applyOp fs op) ops) ++
        [applyOp (List.foldl applyOp (applyOp fs op) ops) y]
    rw [ih (applyOp fs op)]
    rfl

/-- Operations that only write the temporary path never make content
appear at the (distinct) destination path, at any point of the trace. -/
lemma trace_dest_none {dest tmp : Str} (hne : tmp ≠ dest) :
    ∀ (ops : List FsOp) (fs : FSys),
      (∀ op ∈ ops, ∃ m, op = FsOp.put tmp m) → fs dest = none →
      ∀ s ∈ fsTrace fs ops, s dest = none := by
  intro ops
  induction ops with
  | nil =>
    intro fs _ hfs s hs
    simp only [fsTrace, List.mem_singleton] at hs
    rw [hs]
    exact hfs
  | cons op ops ih =>
    intro fs hall hfs s hs
    simp only [fsTrace, List.mem_cons] at hs
    rcases hs with rfl | hs
    · exact hfs
    · obtain ⟨m, rfl⟩ := hall op (by simp)
      refine ih (applyOp fs (FsOp.put tmp m))
        (fun o ho => hall o (List.mem_cons_of_mem _ ho)) ?_ s hs
      simp only [applyOp]
      rw [if_neg (fun h => hne h.symm)]
      exact hfs

/-- Elimination of a successful compile into its pipeline stages. -/
lemma compile_ok_elim {src : List Str} {m : Mat} (h : compile src = .ok m) :
    ∃ w d m', parseHeader (src.headD []) = some (w, d) ∧ (1 ≤ w ∧ 1 ≤ d) ∧
      compileStream w.toNat d.toNat (initMat w.toNat d.toNat) src = .ok m' ∧
      m = zeroRow0 d.toNat m' := by
  cases hh : parseHeader (src.headD []) with
  | none =>
    simp only [compile, hh] at h
    exact absurd h (by simp)
  | some wd =>
    obtain ⟨w, d⟩ := wd
    simp only [compile, hh] at h
    by_cases halloc : 1 ≤ w ∧ 1 ≤ d
    · rw [if_pos halloc] at h
      cases hcs : compileStream w.toNat d.toNat (initMat w.toNat d.toNat) src with
      | error e =>
        rw [hcs] at h
        exact absurd h (by simp)
      | ok m' =>
        rw [hcs] at h
        injection h with h'
        exact ⟨w, d, m', rfl, halloc, hcs, h'.symm⟩
    · rw [if_neg halloc] at h
      exact absurd h (by simp)

/-- The run against a missing or malformed header performs no operation. -/
lemma opsOf_none_eq (dest : Str) {src : List Str}
    (hh : parseHeader (src.headD []) = none) : opsOf dest src = ([], false) := by
  simp only [opsOf, hh]

/-- The run against an unrepresentable shape performs no operation. -/
lemma opsOf_alloc_eq (dest : Str) {src : List Str} {w d : ℤ}
    (hh : parseHeader (src.headD []) = some (w, d)) (halloc : ¬(1 ≤ w ∧ 1 ≤ d)) :
    opsOf dest src = ([], false) := by
  simp only [opsOf, hh]
  rw [if_neg halloc]

/-- The operations of a run whose streaming pass raises a fatal error:
only writes to the temporary path, and the failure flag. -/
lemma opsOf_error_eq (dest : Str) {src : List Str} {w d : ℤ} {e : CompileError}
    (hh : parseHeader (src.headD []) = some (w, d)) (halloc : 1 ≤ w ∧ 1 ≤ d)
    (hcs : compileStream w.toNat d.toNat (initMat w.toNat d.toNat) src = .error e) :
    opsOf dest src =
      (FsOp.put (withSuffix dest ".tmp".toList) (initMat w.toNat d.toNat) ::
        (streamStates w.toNat d.toNat (initMat w.toNat d.toNat) src).map
          (FsOp.put (withSuffix dest ".tmp".toList)), false) := by
  simp only [opsOf, hh]
  rw [if_pos halloc, hcs]

/-- The operations of a successful run: temporary-path writes, the final
zeroed flush, and the atomic rename, with the success flag. -/
lemma opsOf_ok_eq (dest : Str) {src : List Str} {w d : ℤ} {m : Mat}
    (hh : parseHeader (src.headD []) = some (w, d)) (halloc : 1 ≤ w ∧ 1 ≤ d)
    (hcs : compileStream w.toNat d.toNat (initMat w.toNat d.toNat) src = .ok m) :
    opsOf dest src =
      (FsOp.put (withSuffix dest ".tmp".toList) (initMat w.toNat d.toNat) ::
        (streamStates w.toNat d.toNat (initMat w.toNat d.toNat) src).map
          (FsOp.put (withSuffix dest ".tmp".toList))
        ++ [FsOp.put (withSuffix dest ".tmp".toList) (zeroRow0 d.toNat m),
            FsOp.rename (withSuffix dest ".tmp".toList) dest], true) := by
  simp only [opsOf, hh]
  rw [if_pos halloc, hcs]

/-- First projection of `opsOf_ok_eq`, for rewriting under `fsTrace`. -/
lemma opsOf_ok_fst (dest : Str) {src : List Str} {w d : ℤ} {m : Mat}
    (hh : parseHeader (src.headD []) = some (w, d)) (halloc : 1 ≤ w ∧ 1 ≤ d)
    (hcs : compileStream w.toNat d.toNat (initMat w.toNat d.toNat) src = .ok m) :
    (opsOf dest src).1 =
      FsOp.put (withSuffix dest ".tmp".toList) (initMat w.toNat d.toNat) ::
        (streamStates w.toNat d.toNat (initMat w.toNat d.toNat) src).map
          (FsOp.put (withSuffix dest ".tmp".toList))
        ++ [FsOp.put (withSuffix dest ".tmp".toList) (zeroRow0 d.toNat m),
            FsOp.rename (withSuffix dest ".tmp".toList) dest] := by
  rw [opsOf_ok_eq dest hh halloc hcs]

/-- The success flag of a compile run does not depend on the destination
path: it is set exactly when the pure compile function succeeds. -/
lemma opsOf_flag_eq (dest : Str) (src : List Str) :
    (opsOf dest src).2 = true ↔ ∃ m, compile src = .ok m := by
  constructor
  · intro h
    cases hh : parseHeader (src.headD []) with
    | none =>
      rw [opsOf_none_eq dest hh] at h
      simp at h
    | some wd =>
      obtain ⟨w, d⟩ := wd
      by_cases halloc : 1 ≤ w ∧ 1 ≤ d
      · cases hcs : compileStream w.toNat d.toNat (initMat w.toNat d.toNat) src with
        | error e =>
          rw [opsOf_error_eq dest hh halloc hcs] at h
          simp at h
        | ok m' =>
          refine ⟨zeroRow0 d.toNat m', ?_⟩
          simp only [compile, hh]
          rw [if_pos halloc, hcs]
      · rw [opsOf_alloc_eq dest hh halloc] at h
        simp at h
  · intro hex
    obtain ⟨m, hm⟩ := hex
    obtain ⟨w, d, m', hh, halloc, hcs, _⟩ := compile_ok_elim hm
    rw [opsOf_ok_eq dest hh halloc hcs]

/-- After a successful run the destination holds exactly the compiled
matrix, whatever the starting filesystem: the final `put` to the temporary
path followed by the atomic rename determines the published content. -/
lemma opsOf_final (dest : Str) (src : List Str) (fs : FSys) {m : Mat}
    (h : compile src = .ok m) :
    List.foldl applyOp fs (opsOf dest src).1 dest = some m := by
  obtain ⟨w, d, m', hh, halloc, hcs, hm⟩ := compile_ok_elim h
  rw [opsOf_ok_fst dest hh halloc hcs]
  simp only [List.foldl_cons, ← List.append_assoc, List.foldl_append]
  simp only [List.foldl_cons, List.foldl_nil, applyOp]
  rw [if_pos trivial, if_pos trivial, hm]

/-! ## C4 -/

/-- C4: starting from a filesystem with nothing at the destination, every
filesystem state of a compile run except possibly the final one has
nothing at the destination (so an interruption at any point before the
final atomic rename leaves no file there), and a failed run leaves nothing
at the destination in its final state either — only the temporary path can
hold residue. -/
theorem c4_failed_compile_leaves_no_dest :
    ∀ (src : List Str) (dest : Str) (fs0 : FSys),
      fs0 dest = none → withSuffix dest ".tmp".toList ≠ dest →
      (∀ s ∈ (fsTrace fs0 (opsOf dest src).1).dropLast, s dest = none) ∧
      ((opsOf dest src).2 = false →
        ∀ s ∈ fsTrace fs0 (opsOf dest src).1, s dest = none) := by
  intro src dest fs0 hfs0 hne
  cases hh : parseHeader (src.headD []) with
  | none =>
    rw [opsOf_none_eq dest hh]
    constructor
    · intro s hs
      simp [fsTrace] at hs
    · intro _ s hs
      simp only [fsTrace, List.mem_singleton] at hs
      rw [hs]
      exact hfs0
  | some wd =>
    obtain ⟨w, d⟩ := wd
    by_cases halloc : 1 ≤ w ∧ 1 ≤ d
    · cases hcs : compileStream w.toNat d.toNat (initMat w.toNat d.toNat) src with
      | error e =>
        rw [opsOf_error_eq dest hh halloc hcs]
        have hall : ∀ op ∈ FsOp.put (withSuffix dest ".tmp".toList)
            (initMat w.toNat d.toNat) ::
            (streamStates w.toNat d.toNat (initMat w.toNat d.toNat) src).map
              (FsOp.put (withSuffix dest ".tmp".toList)),
            ∃ mm, op = FsOp.put (withSuffix dest ".tmp".toList) mm := by
          intro op hop
          rcases List.mem_cons.mp hop with rfl | hop
          · exact ⟨_, rfl⟩
          · obtain ⟨st, _, rfl⟩ := List.mem_map.mp hop
            exact ⟨st, rfl⟩
        constructor
        · intro s hs
          exact trace_dest_none hne _ fs0 hall hfs0 s (List.dropLast_subset _ hs)
        · intro _ s hs
          exact trace_dest_none hne _ fs0 hall hfs0 s hs
      | ok m =>
        have hre :
            FsOp.put (withSuffix dest ".tmp".toList) (initMat w.toNat d.toNat) ::
              (streamStates w.toNat d.toNat (initMat w.toNat d.toNat) src).map
                (FsOp.put (withSuffix dest ".tmp".toList))
              ++ [FsOp.put (withSuffix dest ".tmp".toList) (zeroRow0 d.toNat m),
                  FsOp.rename (withSuffix dest ".tmp".toList) dest] =
            (FsOp.put (withSuffix dest ".tmp".toList) (initMat w.toNat d.toNat) ::
              (streamStates w.toNat d.toNat (initMat w.toNat d.toNat) src).map
                (FsOp.put (withSuffix dest ".tmp".toList))
              ++ [FsOp.put (withSuffix dest ".tmp".toList) (zeroRow0 d.toNat m)])
            ++ [FsOp.rename (withSuffix dest ".tmp".toList) dest] := by
          simp
        have hall : ∀ op ∈ FsOp.put (withSuffix dest ".tmp".toList)
            (initMat w.toNat d.toNat) ::
            (streamStates w.toNat d.toNat (initMat w.toNat d.toNat) src).map
              (FsOp.put (withSuffix dest ".tmp".toList))
            ++ [FsOp.put (withSuffix dest ".tmp".toList) (zeroRow0 d.toNat m)],
            ∃ mm, op = FsOp.put (withSuffix dest ".tmp".toList) mm := by
          intro op hop
          rcases List.mem_cons.mp hop with rfl | hop
          · exact ⟨_, rfl⟩
          · rcases List.mem_append.mp hop with hop | hop
            · obtain ⟨st, _, rfl⟩ := List.mem_map.mp hop
              exact ⟨st, rfl⟩
            · rw [List.mem_singleton.mp hop]
              exact ⟨_, rfl⟩
        constructor
        · intro s hs
          rw [opsOf_ok_fst dest hh halloc hcs, hre, fsTrace_concat,
            List.dropLast_concat] at hs
          exact trace_dest_none hne _ fs0 hall hfs0 s hs
        · intro hflag
          rw [opsOf_ok_eq dest hh halloc hcs] at hflag
          exact absurd hflag (by simp)
    · rw [opsOf_alloc_eq dest hh halloc]
      constructor
      · intro s hs
        simp [fsTrace] at hs
      · intro _ s hs
        simp only [fsTrace, List.mem_singleton] at hs
        rw [hs]
        exact hfs0

/-- Witness for C4: on a concrete run, the trace state reached after three
operations (mid-stream, before the final rename) still has nothing at the
destination path. -/
theorem c4_failed_compile_leaves_no_dest_witness :
    ((fsTrace (fun _ => none) (opsOf "en-fasttext.numpy".toList
        (["3 2", "hello 1.0 2.0"].map String.toList)).1).dropLast.getD 2
      (fun _ => none)) "en-fasttext.numpy".toList = none := by
  have h := (c4_failed_compile_leaves_no_dest
    (["3 2", "hello 1.0 2.0"].map String.toList) "en-fasttext.numpy".toList
    (fun _ => none) rfl (by decide)).1
  refine h _ ?_
  have hlen : 2 < ((fsTrace (fun _ => none) (opsOf "en-fasttext.numpy".toList
      (["3 2", "hello 1.0 2.0"].map String.toList)).1).dropLast).length := by
    decide
  rw [List.getD_eq_getElem?_getD, List.getElem?_eq_getElem hlen]
  exact List.getElem_mem hlen

/-! ## C8 -/

/-- C8: the compile pipeline is deterministic and independent of
everything but the source lines — two runs of the same source against two
destination paths (and any two starting filesystems) agree on the success
flag, and on success publish identical matrices at their respective
destinations. -/
theorem c8_two_run_determinism :
    ∀ (src : List Str) (fs1 fs2 : FSys) (d1 d2 : Str),
      (opsOf d1 src).2 = (opsOf d2 src).2 ∧
      ((opsOf d1 src).2 = true →
        List.foldl applyOp fs1 (opsOf d1 src).1 d1 =
          List.foldl applyOp fs2 (opsOf d2 src).1 d2) := by
  intro src fs1 fs2 d1 d2
  constructor
  · by_cases h : ∃ m, compile src = .ok m
    · rw [(opsOf_flag_eq d1 src).mpr h, (opsOf_flag_eq d2 src).mpr h]
    · have h1 : (opsOf d1 src).2 ≠ true := fun hh => h ((opsOf_flag_eq d1 src).mp hh)
      have h2 : (opsOf d2 src).2 ≠ true := fun hh => h ((opsOf_flag_eq d2 src).mp hh)
      cases hb1 : (opsOf d1 src).2 with
      | true => exact absurd hb1 h1
      | false =>
        cases hb2 : (opsOf d2 src).2 with
        | true => exact absurd hb2 h2
        | false => rfl
  · intro hflag
    obtain ⟨m, hm⟩ := (opsOf_flag_eq d1 src).mp hflag
    rw [opsOf_final d1 src fs1 hm, opsOf_final d2 src fs2 hm]

/-- Witness for C8: one source compiled against two destinations publishes
the same content at both. -/
theorem c8_two_run_determinism_witness :
    List.foldl applyOp (fun _ => none)
        (opsOf "a.numpy".toList (["3 2", "hello 1.0 2.0"].map String.toList)).1
        "a.numpy".toList =
      List.foldl applyOp (fun _ => none)
        (opsOf "b.numpy".toList (["3 2", "hello 1.0 2.0"].map String.toList)).1
        "b.numpy".toList :=
  (c8_two_run_determinism (["3 2", "hello 1.0 2.0"].map String.toList)
    (fun _ => none) (fun _ => none) "a.numpy".toList "b.numpy".toList).2 (by decide)

end Vectoria
